import Mathlib

/-!
Verification of the datetime resolver of the mcp-server-datadog repository.

The resolver (`parseDatetime` in `src/utils/datetime-parser.ts`) turns a
heterogeneous datetime input (epoch-second number or string expression) into
epoch seconds.  We shallowly embed the TypeScript code:

* JavaScript strings are lists of code points (`List Nat`);
* JavaScript numbers are rationals (`ℚ`): every float is a rational, and the
  claims under study concern exact values and integrality, not rounding;
* the captured current instant `Math.floor(Date.now() / 1000)` is an integer
  parameter `now : ℤ`;
* the external natural-language parser (the `chrono-node` dependency) is a
  capability parameter `chrono : JStr → ℤ → Option ℤ` taking the phrase and
  the reference instant in epoch milliseconds and returning an instant in
  epoch milliseconds; the code calls it without a reference, letting it read
  its own clock, which we model by an extra ambient input `chronoNowMs`;
* the regular-expression matchers are translated into explicit character-run
  parsers; every regex involved alternates disjoint character classes
  (digits, whitespace, letters, literal words), so greedy matching is
  deterministic and the translation is exact.
-/

namespace DatadogDatetime

/-- JavaScript strings modelled as lists of Unicode code points. -/
abbrev JStr := List Nat

/-- Code-point list of a Lean string literal, for transcribing the literals
of the source. -/
def S (s : String) : JStr := s.data.map Char.toNat

/-- JavaScript whitespace: the set matched by the regex class `\s` and
removed by `String.prototype.trim` (WhiteSpace plus LineTerminator). -/
def isJsSpace (c : Nat) : Bool :=
  decide (c = 9 ∨ c = 10 ∨ c = 11 ∨ c = 12 ∨ c = 13 ∨ c = 32 ∨ c = 160 ∨
    c = 5760 ∨ (8192 ≤ c ∧ c ≤ 8202) ∨ c = 8232 ∨ c = 8233 ∨
    c = 8239 ∨ c = 8287 ∨ c = 12288 ∨ c = 65279)

/-- ASCII digit, the regex class `\d`. -/
def isDigitC (c : Nat) : Bool := decide (48 ≤ c ∧ c ≤ 57)

/-- Lower-case ASCII letter, the regex class `[a-z]` without the `i` flag. -/
def isLowerC (c : Nat) : Bool := decide (97 ≤ c ∧ c ≤ 122)

/-- ASCII letter, the regex class `[a-z]` under the `i` flag. -/
def isAlphaC (c : Nat) : Bool := decide ((97 ≤ c ∧ c ≤ 122) ∨ (65 ≤ c ∧ c ≤ 90))

/-- `String.prototype.toLowerCase` on one code point (ASCII range; the
resolver's dialects are ASCII). -/
def lowerC (c : Nat) : Nat := if 65 ≤ c ∧ c ≤ 90 then c + 32 else c

/-- `String.prototype.toLowerCase`. -/
def jsLower (s : JStr) : JStr := s.map lowerC

/-- `String.prototype.trim`: drop leading and trailing JavaScript whitespace. -/
def jsTrim (s : JStr) : JStr :=
  ((s.dropWhile isJsSpace).reverse.dropWhile isJsSpace).reverse

/-- Case-insensitive comparison of two code points, for regexes carrying the
`i` flag. -/
def lowEqC (c d : Nat) : Bool := decide (lowerC c = lowerC d)

/-- Split a string into its longest run of characters satisfying `p` and the
remainder — the unique way a greedy regex consumes a character class. -/
def spanP (p : Nat → Bool) : JStr → JStr × JStr
  | [] => ([], [])
  | c :: cs =>
    if p c then
      let r := spanP p cs
      (c :: r.1, r.2)
    else ([], c :: cs)

/-- `parseInt(ds, 10)` on a nonempty all-digit string. -/
def digitsVal (ds : JStr) : Nat := ds.foldl (fun n c => 10 * n + (c - 48)) 0

/-- Property lookup in a JavaScript object literal, modelled as an
association list. -/
def alistLookup {α : Type} (l : List (JStr × α)) (k : JStr) : Option α :=
  match l with
  | [] => none
  | (k', v) :: t => if k = k' then some v else alistLookup t k

/-- The `UNIT_NAMES` table of the source: abbreviated units to the full word
expected by chrono. -/
def unitNames : List (JStr × JStr) :=
  [ (S ("s"), S ("second")), (S ("sec"), S ("second")),
    (S ("secs"), S ("second")), (S ("second"), S ("second")),
    (S ("seconds"), S ("second")),
    (S ("m"), S ("minute")), (S ("min"), S ("minute")),
    (S ("mins"), S ("minute")), (S ("minute"), S ("minute")),
    (S ("minutes"), S ("minute")),
    (S ("h"), S ("hour")), (S ("hr"), S ("hour")), (S ("hrs"), S ("hour")),
    (S ("hour"), S ("hour")), (S ("hours"), S ("hour")),
    (S ("d"), S ("day")), (S ("day"), S ("day")), (S ("days"), S ("day")),
    (S ("w"), S ("week")), (S ("wk"), S ("week")), (S ("wks"), S ("week")),
    (S ("week"), S ("week")), (S ("weeks"), S ("week")),
    (S ("mo"), S ("month")), (S ("month"), S ("month")),
    (S ("months"), S ("month")),
    (S ("y"), S ("year")), (S ("yr"), S ("year")), (S ("yrs"), S ("year")),
    (S ("year"), S ("year")), (S ("years"), S ("year")) ]

/-- The `UNIT_SECONDS` table of the source. -/
def unitSeconds : List (JStr × ℤ) :=
  [ (S ("second"), 1), (S ("minute"), 60), (S ("hour"), 3600),
    (S ("day"), 86400), (S ("week"), 604800), (S ("month"), 2592000),
    (S ("year"), 31536000) ]

/-- The regex `^([+-]?)(\d+)\s*([a-z]+)$` of the shorthand tier, returning
(sign, digits, unit letters). -/
def matchShorthand (s : JStr) : Option (JStr × JStr × JStr) :=
  let sp :=
    match s with
    | c :: rest => if c = 43 ∨ c = 45 then ([c], rest) else ([], s)
    | [] => ([], s)
  let dsp := spanP isDigitC sp.2
  if dsp.1 = [] then none
  else
    let usp := spanP isLowerC (spanP isJsSpace dsp.2).2
    if usp.1 = [] ∨ usp.2 ≠ [] then none else some (sp.1, dsp.1, usp.1)

/-- The shorthand-offset tier (source lines 133–146): `-1d`, `2h`, `+1w`.
Returns `none` when the tier falls through (no regex match, an embedded
space — `str.includes(' ')` — or an unrecognized unit). -/
def shorthandOffset (str : JStr) (now : ℤ) : Option ℤ :=
  match matchShorthand str with
  | none => none
  | some (sg, ds, us) =>
    if 32 ∈ str then none
    else
      match alistLookup unitNames (jsLower us) with
      | none => none
      | some u =>
        match alistLookup unitSeconds u with
        | none => none
        | some k =>
          if k = 0 then none
          else some (now + (if sg = [43] then 1 else -1) * (digitsVal ds : ℤ) * k)

/-- The regex `^now\s*([+-])\s*(\d+)\s*([a-z]+)$/i` of the `now±` tier,
returning (sign, digits, unit letters). -/
def matchNowRel (s : JStr) : Option (Nat × JStr × JStr) :=
  match s with
  | c1 :: c2 :: c3 :: rest =>
    if lowEqC c1 110 && lowEqC c2 111 && lowEqC c3 119 then
      match (spanP isJsSpace rest).2 with
      | sg :: r2 =>
        if sg = 43 ∨ sg = 45 then
          let dsp := spanP isDigitC (spanP isJsSpace r2).2
          if dsp.1 = [] then none
          else
            let usp := spanP isAlphaC (spanP isJsSpace dsp.2).2
            if usp.1 = [] ∨ usp.2 ≠ [] then none else some (sg, dsp.1, usp.1)
        else none
      | [] => none
    else none
  | _ => none

/-- The `now±<value><unit>` tier (source lines 148–159): `now-1h`, `now+2d`.
The sign is `-1` exactly when the matched sign character is `-`. -/
def nowRelativeOffset (str : JStr) (now : ℤ) : Option ℤ :=
  match matchNowRel str with
  | none => none
  | some (sg, ds, us) =>
    match alistLookup unitNames (jsLower us) with
    | none => none
    | some u =>
      match alistLookup unitSeconds u with
      | none => none
      | some k =>
        if k = 0 then none
        else some (now + (if sg = 45 then -1 else 1) * (digitsVal ds : ℤ) * k)

/-- The regex `^(\d+)\s*([a-z]+)\s+ago$/i` of the normalizer, returning
(digits, unit letters). -/
def matchAgo (s : JStr) : Option (JStr × JStr) :=
  let dsp := spanP isDigitC s
  if dsp.1 = [] then none
  else
    let usp := spanP isAlphaC (spanP isJsSpace dsp.2).2
    if usp.1 = [] then none
    else
      let wsp := spanP isJsSpace usp.2
      if wsp.1 = [] then none
      else
        match wsp.2 with
        | [a, g, o] =>
          if lowEqC a 97 && lowEqC g 103 && lowEqC o 111 then
            some (dsp.1, usp.1)
          else none
        | _ => none

/-- The shared tail `\s+(\d+)\s*([a-z]+)$` of the `in`/`minus`/`plus`
normalizer regexes, returning (digits, unit letters). -/
def numUnitTail (rest : JStr) : Option (JStr × JStr) :=
  let wsp := spanP isJsSpace rest
  if wsp.1 = [] then none
  else
    let dsp := spanP isDigitC wsp.2
    if dsp.1 = [] then none
    else
      let usp := spanP isAlphaC (spanP isJsSpace dsp.2).2
      if usp.1 = [] ∨ usp.2 ≠ [] then none else some (dsp.1, usp.1)

/-- The regex `^in\s+(\d+)\s*([a-z]+)$/i` of the normalizer. -/
def matchIn (s : JStr) : Option (JStr × JStr) :=
  match s with
  | c1 :: c2 :: rest =>
    if lowEqC c1 105 && lowEqC c2 110 then numUnitTail rest else none
  | _ => none

/-- The regex `^minus\s+(\d+)\s*([a-z]+)$/i` of the normalizer. -/
def matchMinus (s : JStr) : Option (JStr × JStr) :=
  match s with
  | c1 :: c2 :: c3 :: c4 :: c5 :: rest =>
    if lowEqC c1 109 && lowEqC c2 105 && lowEqC c3 110 &&
        lowEqC c4 117 && lowEqC c5 115 then
      numUnitTail rest
    else none
  | _ => none

/-- The regex `^plus\s+(\d+)\s*([a-z]+)$/i` of the normalizer. -/
def matchPlus (s : JStr) : Option (JStr × JStr) :=
  match s with
  | c1 :: c2 :: c3 :: c4 :: rest =>
    if lowEqC c1 112 && lowEqC c2 108 && lowEqC c3 117 && lowEqC c4 115 then
      numUnitTail rest
    else none
  | _ => none

/-- The pluralization of the normalizer: append `s` when `parseInt(num)` is
not exactly 1. -/
def pluralSfx (num : JStr) : JStr := if digitsVal num = 1 then [] else [115]

/-- The rewrite target `<num> <unit><plural> ago` of the `ago`/`minus`
branches. -/
def agoRewrite (num u : JStr) : JStr :=
  num ++ [32] ++ u ++ pluralSfx num ++ [32, 97, 103, 111]

/-- The rewrite target `in <num> <unit><plural>` of the `in`/`plus`
branches. -/
def inRewrite (num u : JStr) : JStr :=
  [105, 110, 32] ++ num ++ [32] ++ u ++ pluralSfx num

/-- `normalizeInput` (source lines 61–107): rewrite abbreviated time
expressions to the chrono-friendly phrase; pass everything else through
verbatim.  A branch whose regex matches but whose unit is not in
`UNIT_NAMES` falls through to the next branch. -/
def normalizeInput (str : JStr) : JStr :=
  match (matchAgo str).bind
      (fun nu => (alistLookup unitNames (jsLower nu.2)).map
        (fun u => agoRewrite nu.1 u)) with
  | some r => r
  | none =>
    match (matchIn str).bind
        (fun nu => (alistLookup unitNames (jsLower nu.2)).map
          (fun u => inRewrite nu.1 u)) with
    | some r => r
    | none =>
      match (matchMinus str).bind
          (fun nu => (alistLookup unitNames (jsLower nu.2)).map
            (fun u => agoRewrite nu.1 u)) with
      | some r => r
      | none =>
        match (matchPlus str).bind
            (fun nu => (alistLookup unitNames (jsLower nu.2)).map
              (fun u => inRewrite nu.1 u)) with
        | some r => r
        | none => str

/-- The thrown message: `Invalid datetime format: "<input>". Supported
formats: …` with the original, untrimmed, unlowered input interpolated. -/
def invalidMsg (s : JStr) : JStr :=
  S ("Invalid datetime format: \"") ++ s ++
  S ("\". Supported formats: epoch seconds, shorthand (-1d, 2h, +1w), relative (now-1h), natural language (yesterday, 5 days ago, last Friday, in 2 weeks), ISO 8601")

/-- A datetime input: a number (epoch seconds) or a string expression. -/
abbrev DatetimeInput := ℚ ⊕ JStr

/-- Results of the resolver are decidably comparable, so concrete runs can
be checked by `decide`. -/
instance {ε α : Type} [DecidableEq ε] [DecidableEq α] :
    DecidableEq (Except ε α) := fun a b =>
  match a, b with
  | .ok x, .ok y =>
    if h : x = y then .isTrue (by rw [h])
    else .isFalse (by intro he; cases he; exact h rfl)
  | .error x, .error y =>
    if h : x = y then .isTrue (by rw [h])
    else .isFalse (by intro he; cases he; exact h rfl)
  | .ok _, .error _ => .isFalse (by intro he; cases he)
  | .error _, .ok _ => .isFalse (by intro he; cases he)

/-- The priority chain of `parseDatetime` on the trimmed lower-cased string:
literal `now`, shorthand offset, `now±` offset, then chrono on the
normalized string with `Math.floor(ms / 1000)`. -/
def resolveStr (chrono : JStr → ℤ → Option ℤ) (chronoNowMs : ℤ)
    (str : JStr) (now : ℤ) : Option ℤ :=
  if str = S ("now") then some now
  else
    match shorthandOffset str now with
    | some v => some v
    | none =>
      match nowRelativeOffset str now with
      | some v => some v
      | none =>
        (chrono (normalizeInput str) chronoNowMs).map
          (fun ms => Int.fdiv ms 1000)

/-- `parseDatetime` (source lines 119–175).  A number is returned as-is;
a string is trimmed and lower-cased, fed through the priority chain, and on
total failure the error interpolates the original input. -/
def parseDatetime (chrono : JStr → ℤ → Option ℤ) (chronoNowMs : ℤ)
    (input : DatetimeInput) (now : ℤ) : Except JStr ℚ :=
  match input with
  | .inl q => .ok q
  | .inr s =>
    match resolveStr chrono chronoNowMs (jsLower (jsTrim s)) now with
    | some v => .ok ((v : ℚ))
    | none => .error (invalidMsg s)

/-- The normalizer-plus-natural-language fallback tier on its own (source
lines 161–174), as a function of the original input string. -/
def fallbackTier (chrono : JStr → ℤ → Option ℤ) (chronoNowMs : ℤ)
    (s : JStr) : Except JStr ℚ :=
  match (chrono (normalizeInput (jsLower (jsTrim s))) chronoNowMs).map
      (fun ms => Int.fdiv ms 1000) with
  | some v => .ok ((v : ℚ))
  | none => .error (invalidMsg s)

/-- The multiplier table of the previous parser implementation
(`src/utils/datetime-parser.ts` before the chrono rewrite): s, m, h, d, w.
Total on the five characters its regex admits. -/
def oldMult (u : Nat) : ℤ :=
  if u = 115 then 1
  else if u = 109 then 60
  else if u = 104 then 3600
  else if u = 100 then 86400
  else 604800

/-- The regex `^now-(\d+)([smhdw])$` of the previous implementation,
returning (digits, unit character). -/
def matchOldRel (s : JStr) : Option (JStr × Nat) :=
  match s with
  | 110 :: 111 :: 119 :: 45 :: rest =>
    let dsp := spanP isDigitC rest
    if dsp.1 = [] then none
    else
      match dsp.2 with
      | [u] =>
        if u = 115 ∨ u = 109 ∨ u = 104 ∨ u = 100 ∨ u = 119 then
          some (dsp.1, u)
        else none
      | _ => none
  | _ => none

/-- The thrown message of the previous implementation. -/
def oldInvalidMsg (s : JStr) : JStr :=
  S ("Invalid datetime format: \"") ++ s ++
  S ("\". Supported formats: epoch seconds (number), relative time (now-1h, now-7d), ISO 8601 (2025-11-28T12:00:00Z), shortcuts (yesterday, today, last week, last month)")

/-- The previous `parseDatetime`.  `todayMid` is the UTC midnight of the
current date (the code builds it from a fresh `new Date()` by forcing
midnight; `yesterday` forces midnight after stepping one UTC day back,
hence `todayMid - 86400` — JavaScript time has exactly 86400 seconds per
day).  `dParse` is the `Date.parse` capability in epoch milliseconds,
`none` standing for `NaN`; it is applied to the original input string. -/
def oldParseDatetime (todayMid : ℤ) (dParse : JStr → Option ℤ)
    (input : DatetimeInput) (now : ℤ) : Except JStr ℚ :=
  match input with
  | .inl q => .ok q
  | .inr s =>
    let str := jsLower (jsTrim s)
    if str = S ("now") then .ok ((now : ℚ))
    else
      match matchOldRel str with
      | some du =>
        .ok (((now - (digitsVal du.1 : ℤ) * oldMult du.2 : ℤ) : ℚ))
      | none =>
        if str = S ("yesterday") then .ok (((todayMid - 86400 : ℤ) : ℚ))
        else if str = S ("today") then .ok ((todayMid : ℚ))
        else if str = S ("last week") then
          .ok (((now - 7 * 86400 : ℤ) : ℚ))
        else if str = S ("last month") then
          .ok (((now - 30 * 86400 : ℤ) : ℚ))
        else
          match dParse s with
          | some ms => .ok ((Int.fdiv ms 1000 : ℚ))
          | none => .error (oldInvalidMsg s)

/-- Modelled from the spec: the unit-to-seconds table exactly as stated in
the shorthand-offset rule (second=1, minute=60, hour=3600, day=86400,
week=604800, month=2592000, year=31536000). -/
def specUnitSeconds (u : JStr) : ℤ :=
  if u = S ("second") then 1
  else if u = S ("minute") then 60
  else if u = S ("hour") then 3600
  else if u = S ("day") then 86400
  else if u = S ("week") then 604800
  else if u = S ("month") then 2592000
  else 31536000

/-- Modelled from the spec: the fallback tier as the spec words it — the
natural-language parser invoked on the normalized string *anchored at the
captured `currentInstant`* (in milliseconds), its result floored to epoch
seconds.  The code, by contrast, invokes the parser without a reference
instant, so the parser anchors at its own fresh clock reading. -/
def specAnchoredFallback (chrono : JStr → ℤ → Option ℤ) (s : JStr)
    (now : ℤ) : Option ℤ :=
  (chrono (normalizeInput (jsLower (jsTrim s))) (now * 1000)).map
    (fun ms => Int.fdiv ms 1000)

/-- The chrono capability used to separate the two possible anchorings:
it reports exactly the reference instant it was invoked with. -/
def cexChrono : JStr → ℤ → Option ℤ := fun _ ref => some ref

/-! ## Support lemmas: character classes -/

theorem isJsSpace_of_digit {c : Nat} (h : isDigitC c = true) :
    isJsSpace c = false := by
  simp only [isDigitC, decide_eq_true_eq] at h
  simp only [isJsSpace, decide_eq_false_iff_not]
  omega

theorem isJsSpace_of_alpha {c : Nat} (h : isAlphaC c = true) :
    isJsSpace c = false := by
  simp only [isAlphaC, decide_eq_true_eq] at h
  simp only [isJsSpace, decide_eq_false_iff_not]
  omega

theorem isDigitC_of_alpha {c : Nat} (h : isAlphaC c = true) :
    isDigitC c = false := by
  simp only [isAlphaC, decide_eq_true_eq] at h
  simp only [isDigitC, decide_eq_false_iff_not]
  omega

theorem isAlphaC_of_lower {c : Nat} (h : isLowerC c = true) :
    isAlphaC c = true := by
  simp only [isLowerC, decide_eq_true_eq] at h
  simp only [isAlphaC, decide_eq_true_eq]
  omega

theorem lowerC_idem (c : Nat) : lowerC (lowerC c) = lowerC c := by
  by_cases h : 65 ≤ c ∧ c ≤ 90
  · have h1 : lowerC c = c + 32 := if_pos h
    have h2 : lowerC (c + 32) = c + 32 := by
      unfold lowerC
      rw [if_neg (by omega)]
    rw [h1, h2]
  · have h1 : lowerC c = c := if_neg h
    rw [h1, h1]

theorem lowerC_of_lower {c : Nat} (h : isLowerC c = true) : lowerC c = c := by
  simp only [isLowerC, decide_eq_true_eq] at h
  simp only [lowerC]
  split <;> omega

theorem isJsSpace_lowerC (c : Nat) : isJsSpace (lowerC c) = isJsSpace c := by
  simp only [lowerC]
  split
  · rename_i h
    have h1 : isJsSpace (c + 32) = false := by
      simp only [isJsSpace, decide_eq_false_iff_not]; omega
    have h2 : isJsSpace c = false := by
      simp only [isJsSpace, decide_eq_false_iff_not]; omega
    rw [h1, h2]
  · rfl

theorem isLowerC_lowerC_elim {c : Nat} (h : isLowerC (lowerC c) = true) :
    isAlphaC c = true := by
  simp only [isLowerC, decide_eq_true_eq, lowerC] at h
  simp only [isAlphaC, decide_eq_true_eq]
  by_cases hc : 65 ≤ c ∧ c ≤ 90
  · omega
  · rw [if_neg hc] at h; omega

/-! ## Support lemmas: spans, trimming, lowering -/

theorem spanP_append (p : Nat → Bool) (xs ys : JStr)
    (h1 : ∀ c ∈ xs, p c = true)
    (h2 : ∀ c, ys.head? = some c → p c = false) :
    spanP p (xs ++ ys) = (xs, ys) := by
  induction xs with
  | nil =>
    cases ys with
    | nil => rfl
    | cons y t => simp [spanP, h2 y rfl]
  | cons x t ih =>
    have hx := h1 x (by simp)
    have ht := ih (fun c hc => h1 c (by simp [hc]))
    simp [spanP, hx, ht]

theorem spanP_head_none (p : Nat → Bool) (ys : JStr)
    (h : ∀ c, ys.head? = some c → p c = false) :
    spanP p ys = ([], ys) :=
  spanP_append p [] ys (by simp) h

theorem dropWhile_eq_self_of_head (p : Nat → Bool) (s : JStr)
    (h : ∀ c, s.head? = some c → p c = false) : s.dropWhile p = s := by
  cases s with
  | nil => rfl
  | cons c t => simp [List.dropWhile_cons, h c rfl]

theorem head?_dropWhile_false (p : Nat → Bool) (s : JStr) :
    ∀ c, (s.dropWhile p).head? = some c → p c = false := by
  induction s with
  | nil => intro c h; simp at h
  | cons x t ih =>
    intro c h
    by_cases hx : p x
    · rw [List.dropWhile_cons, if_pos hx] at h
      exact ih c h
    · rw [List.dropWhile_cons, if_neg hx] at h
      simp only [List.head?_cons, Option.some.injEq] at h
      subst h; simpa using hx

theorem getLast?_dropWhile (p : Nat → Bool) (s : JStr)
    (h : s.dropWhile p ≠ []) : (s.dropWhile p).getLast? = s.getLast? := by
  induction s with
  | nil => simp at h
  | cons x t ih =>
    by_cases hx : p x
    · rw [List.dropWhile_cons, if_pos hx] at h ⊢
      have ht : t ≠ [] := by
        intro he; subst he; simp [List.dropWhile_nil] at h
      cases t with
      | nil => exact absurd rfl ht
      | cons y u => rw [ih h, List.getLast?_cons_cons]
    · rw [List.dropWhile_cons, if_neg hx]

theorem dropWhile_eq_self_of_all (p : Nat → Bool) (s : JStr)
    (h : ∀ c ∈ s, p c = false) : s.dropWhile p = s :=
  dropWhile_eq_self_of_head p s (fun c hc => by
    cases s with
    | nil => simp at hc
    | cons x t =>
      simp only [List.head?_cons, Option.some.injEq] at hc
      exact hc ▸ h x (by simp))

theorem jsTrim_eq_self (s : JStr) (h : ∀ c ∈ s, isJsSpace c = false) :
    jsTrim s = s := by
  unfold jsTrim
  rw [dropWhile_eq_self_of_all _ _ h,
    dropWhile_eq_self_of_all _ _ (fun c hc => h c (by simpa using hc)),
    List.reverse_reverse]

theorem jsLower_eq_self : ∀ s : JStr, (∀ c ∈ s, lowerC c = c) → jsLower s = s := by
  intro s
  induction s with
  | nil => intro _; rfl
  | cons x t ih =>
    intro h
    have h1 : lowerC x = x := h x (by simp)
    have h2 : jsLower t = t := ih (fun c hc => h c (by simp [hc]))
    simp only [jsLower, List.map_cons] at h2 ⊢
    rw [h1, h2]

theorem jsTrim_eq_self_of_ends (l : JStr)
    (h1 : ∀ c, l.head? = some c → isJsSpace c = false)
    (h2 : ∀ c, l.getLast? = some c → isJsSpace c = false) :
    jsTrim l = l := by
  unfold jsTrim
  rw [dropWhile_eq_self_of_head _ _ h1,
    dropWhile_eq_self_of_head _ _
      (fun c hc => h2 c (by rwa [List.head?_reverse] at hc)),
    List.reverse_reverse]

theorem jsTrim_idem (s : JStr) : jsTrim (jsTrim s) = jsTrim s := by
  apply jsTrim_eq_self_of_ends
  · intro c hc
    unfold jsTrim at hc
    rw [List.head?_reverse] at hc
    by_cases hnil : (s.dropWhile isJsSpace).reverse.dropWhile isJsSpace = []
    · rw [hnil] at hc; simp at hc
    · rw [getLast?_dropWhile _ _ hnil, List.getLast?_reverse] at hc
      exact head?_dropWhile_false _ _ c hc
  · intro c hc
    unfold jsTrim at hc
    rw [List.getLast?_reverse] at hc
    exact head?_dropWhile_false _ _ c hc

theorem jsLower_idem (s : JStr) : jsLower (jsLower s) = jsLower s := by
  unfold jsLower
  rw [List.map_map]
  exact List.map_congr_left (fun c _ => lowerC_idem c)

theorem jsTrim_jsLower (s : JStr) : jsTrim (jsLower s) = jsLower (jsTrim s) := by
  have hcomp : isJsSpace ∘ lowerC = isJsSpace := funext isJsSpace_lowerC
  unfold jsTrim jsLower
  rw [List.dropWhile_map, hcomp, ← List.map_reverse, List.dropWhile_map,
    hcomp, ← List.map_reverse]

theorem jsNorm_idem (s : JStr) :
    jsLower (jsTrim (jsLower (jsTrim s))) = jsLower (jsTrim s) := by
  rw [jsTrim_jsLower, jsTrim_idem, jsLower_idem]

/-! ## Support lemmas: the unit tables -/

theorem alistLookup_mem {α : Type} (l : List (JStr × α)) (k : JStr) (v : α)
    (h : alistLookup l k = some v) : (k, v) ∈ l := by
  induction l with
  | nil => simp [alistLookup] at h
  | cons p t ih =>
    obtain ⟨k', v'⟩ := p
    rw [alistLookup] at h
    split at h
    · rename_i hk
      injection h with hv
      subst hk hv
      exact List.mem_cons_self _ _
    · exact List.mem_cons_of_mem _ (ih h)

/-- Collected facts about every entry of `UNIT_NAMES`: keys are nonempty
lower-case words that survive `toLowerCase`, and values are canonical unit
names whose `UNIT_SECONDS` entry exists, is nonzero, and agrees with the
spec's table. -/
theorem unitNames_entry_facts :
    ∀ kv ∈ unitNames, kv.1 ≠ [] ∧ (∀ c ∈ kv.1, isLowerC c = true) ∧
      jsLower kv.1 = kv.1 ∧
      alistLookup unitSeconds kv.2 = some (specUnitSeconds kv.2) ∧
      specUnitSeconds kv.2 ≠ 0 ∧
      kv.2 ∈ [S ("second"), S ("minute"), S ("hour"), S ("day"), S ("week"),
        S ("month"), S ("year")] := by
  decide

theorem unit_key_facts {k u : JStr} (h : alistLookup unitNames k = some u) :
    k ≠ [] ∧ (∀ c ∈ k, isLowerC c = true) ∧ jsLower k = k ∧
      alistLookup unitSeconds u = some (specUnitSeconds u) ∧
      specUnitSeconds u ≠ 0 ∧
      u ∈ [S ("second"), S ("minute"), S ("hour"), S ("day"), S ("week"),
        S ("month"), S ("year")] :=
  unitNames_entry_facts (k, u) (alistLookup_mem _ _ _ h)

theorem unit_key_lower_facts {us u : JStr}
    (h : alistLookup unitNames (jsLower us) = some u) :
    us ≠ [] ∧ (∀ c ∈ us, isAlphaC c = true) := by
  obtain ⟨hne, hl, -, -, -, -⟩ := unit_key_facts h
  constructor
  · intro he
    subst he
    exact hne rfl
  · intro c hc
    exact isLowerC_lowerC_elim (hl (lowerC c) (List.mem_map_of_mem lowerC hc))

/-! ## Support lemmas: matcher computations -/

theorem ne_now_of_head {s : JStr} {c : Nat} (h : s.head? = some c)
    (hn : c ≠ 110) : s ≠ S ("now") := by
  intro he
  rw [he] at h
  have : c = 110 := by
    have h110 : (S ("now")).head? = some 110 := rfl
    rw [h110] at h
    exact (Option.some.injEq _ _ ▸ h).symm
  exact hn this

theorem matchShorthand_none_head {s : JStr} {c : Nat} (h : s.head? = some c)
    (hnd : isDigitC c = false) (hns : ¬(c = 43 ∨ c = 45)) :
    matchShorthand s = none := by
  cases s with
  | nil => simp at h
  | cons x t =>
    simp only [List.head?_cons, Option.some.injEq] at h
    subst h
    have hsp : spanP isDigitC (x :: t) = ([], x :: t) :=
      spanP_head_none _ _ (fun c hc => by
        simp only [List.head?_cons, Option.some.injEq] at hc
        subst hc
        exact hnd)
    simp [matchShorthand, hns, hsp]

theorem shorthandOffset_none_head {s : JStr} {c : Nat} (now : ℤ)
    (h : s.head? = some c) (hnd : isDigitC c = false)
    (hns : ¬(c = 43 ∨ c = 45)) : shorthandOffset s now = none := by
  unfold shorthandOffset
  rw [matchShorthand_none_head h hnd hns]

theorem matchNowRel_none_head {s : JStr} {c : Nat} (h : s.head? = some c)
    (hn : lowerC c ≠ 110) : matchNowRel s = none := by
  cases s with
  | nil => simp at h
  | cons x t =>
    simp only [List.head?_cons, Option.some.injEq] at h
    subst h
    have hlx : lowEqC x 110 = false := by
      simp only [lowEqC, decide_eq_false_iff_not]
      intro he
      exact hn (by rw [he]; rfl)
    cases t with
    | nil => rfl
    | cons y u =>
      cases u with
      | nil => rfl
      | cons z w => simp [matchNowRel, hlx]

theorem nowRelativeOffset_none_head {s : JStr} {c : Nat} (now : ℤ)
    (h : s.head? = some c) (hn : lowerC c ≠ 110) :
    nowRelativeOffset s now = none := by
  unfold nowRelativeOffset
  rw [matchNowRel_none_head h hn]

theorem matchShorthand_shape {sg ds us : JStr}
    (hs : sg = [] ∨ sg = [43] ∨ sg = [45])
    (hd : ds ≠ []) (hdd : ∀ c ∈ ds, isDigitC c = true)
    (hne : us ≠ []) (hla : ∀ c ∈ us, isLowerC c = true) :
    matchShorthand (sg ++ ds ++ us) = some (sg, ds, us) := by
  obtain ⟨d0, ds', rfl⟩ : ∃ d0 t, ds = d0 :: t := by
    cases ds with
    | nil => exact absurd rfl hd
    | cons a b => exact ⟨a, b, rfl⟩
  obtain ⟨u0, us', rfl⟩ : ∃ u0 t, us = u0 :: t := by
    cases us with
    | nil => exact absurd rfl hne
    | cons a b => exact ⟨a, b, rfl⟩
  have hd0 : isDigitC d0 = true := hdd d0 (by simp)
  have hd0n : ¬(d0 = 43 ∨ d0 = 45) := by
    simp only [isDigitC, decide_eq_true_eq] at hd0
    omega
  have hu0 : isLowerC u0 = true := hla u0 (by simp)
  have hspan1 : spanP isDigitC ((d0 :: ds') ++ (u0 :: us')) = (d0 :: ds', u0 :: us') :=
    spanP_append _ _ _ hdd (fun c hc => by
      simp only [List.head?_cons, Option.some.injEq] at hc
      subst hc
      exact isDigitC_of_alpha (isAlphaC_of_lower hu0))
  have hspan2 : spanP isJsSpace (u0 :: us') = ([], u0 :: us') :=
    spanP_head_none _ _ (fun c hc => by
      simp only [List.head?_cons, Option.some.injEq] at hc
      subst hc
      exact isJsSpace_of_alpha (isAlphaC_of_lower hu0))
  have hspan3 : spanP isLowerC (u0 :: us') = (u0 :: us', []) := by
    have := spanP_append isLowerC (u0 :: us') [] hla (by simp)
    simpa using this
  simp only [List.cons_append] at hspan1
  rcases hs with rfl | rfl | rfl
  · simp [matchShorthand, hd0n, hspan1, hspan2, hspan3]
  · simp [matchShorthand, hspan1, hspan2, hspan3]
  · simp [matchShorthand, hspan1, hspan2, hspan3]

theorem shorthandOffset_shape {sg ds us u : JStr} (now : ℤ)
    (hs : sg = [] ∨ sg = [43] ∨ sg = [45])
    (hd : ds ≠ []) (hdd : ∀ c ∈ ds, isDigitC c = true)
    (hu : alistLookup unitNames us = some u) :
    shorthandOffset (sg ++ ds ++ us) now =
      some (now + (if sg = [43] then 1 else -1) * (digitsVal ds : ℤ) *
        specUnitSeconds u) := by
  obtain ⟨hne, hla, hlow, hsec, hnz, -⟩ := unit_key_facts hu
  have h32 : ¬((32 : Nat) ∈ sg ++ ds ++ us) := by
    intro hm
    rcases List.mem_append.mp hm with hm | hm
    · rcases List.mem_append.mp hm with hm | hm
      · rcases hs with rfl | rfl | rfl <;> simp at hm
      · have := hdd 32 hm
        simp only [isDigitC, decide_eq_true_eq] at this
        omega
    · have := hla 32 hm
      simp only [isLowerC, decide_eq_true_eq] at this
      omega
  unfold shorthandOffset
  rw [matchShorthand_shape hs hd hdd hne hla]
  simp only [if_neg h32, hlow, hu, hsec, if_neg hnz]

theorem matchNowRel_shape {ws1 ws2 ws3 ds us : JStr} {sg : Nat}
    (hw1 : ∀ c ∈ ws1, isJsSpace c = true) (hw2 : ∀ c ∈ ws2, isJsSpace c = true)
    (hw3 : ∀ c ∈ ws3, isJsSpace c = true)
    (hsg : sg = 43 ∨ sg = 45)
    (hd : ds ≠ []) (hdd : ∀ c ∈ ds, isDigitC c = true)
    (hne : us ≠ []) (hla : ∀ c ∈ us, isAlphaC c = true) :
    matchNowRel (S ("now") ++ ws1 ++ [sg] ++ ws2 ++ ds ++ ws3 ++ us) =
      some (sg, ds, us) := by
  obtain ⟨d0, ds', rfl⟩ : ∃ d0 t, ds = d0 :: t := by
    cases ds with
    | nil => exact absurd rfl hd
    | cons a b => exact ⟨a, b, rfl⟩
  obtain ⟨u0, us', rfl⟩ : ∃ u0 t, us = u0 :: t := by
    cases us with
    | nil => exact absurd rfl hne
    | cons a b => exact ⟨a, b, rfl⟩
  have hd0 : isDigitC d0 = true := hdd d0 (by simp)
  have hu0 : isAlphaC u0 = true := hla u0 (by simp)
  have harr : S ("now") ++ ws1 ++ [sg] ++ ws2 ++ (d0 :: ds') ++ ws3 ++ (u0 :: us') =
      110 :: 111 :: 119 :: (ws1 ++ (sg :: (ws2 ++ ((d0 :: ds') ++ (ws3 ++ (u0 :: us')))))) := by
    show [110, 111, 119] ++ ws1 ++ [sg] ++ ws2 ++ (d0 :: ds') ++ ws3 ++ (u0 :: us') = _
    simp [List.append_assoc]
  have hsgs : isJsSpace sg = false := by
    rcases hsg with rfl | rfl <;> decide
  have hspan1 : spanP isJsSpace (ws1 ++ (sg :: (ws2 ++ ((d0 :: ds') ++ (ws3 ++ (u0 :: us')))))) =
      (ws1, sg :: (ws2 ++ ((d0 :: ds') ++ (ws3 ++ (u0 :: us'))))) :=
    spanP_append _ _ _ hw1 (fun c hc => by
      simp only [List.head?_cons, Option.some.injEq] at hc
      subst hc
      exact hsgs)
  have hspan2 : spanP isJsSpace (ws2 ++ ((d0 :: ds') ++ (ws3 ++ (u0 :: us')))) =
      (ws2, (d0 :: ds') ++ (ws3 ++ (u0 :: us'))) :=
    spanP_append _ _ _ hw2 (fun c hc => by
      simp only [List.cons_append, List.head?_cons, Option.some.injEq] at hc
      subst hc
      exact isJsSpace_of_digit hd0)
  have hspan3 : spanP isDigitC ((d0 :: ds') ++ (ws3 ++ (u0 :: us'))) =
      (d0 :: ds', ws3 ++ (u0 :: us')) :=
    spanP_append _ _ _ hdd (fun c hc => by
      cases ws3 with
      | nil =>
        simp only [List.nil_append, List.head?_cons, Option.some.injEq] at hc
        subst hc
        exact isDigitC_of_alpha hu0
      | cons w t =>
        simp only [List.cons_append, List.head?_cons, Option.some.injEq] at hc
        have hw : isJsSpace w = true := hw3 w (by simp)
        simp only [isJsSpace, decide_eq_true_eq] at hw
        simp only [isDigitC, decide_eq_false_iff_not]
        omega)
  have hspan4 : spanP isJsSpace (ws3 ++ (u0 :: us')) = (ws3, u0 :: us') :=
    spanP_append _ _ _ hw3 (fun c hc => by
      simp only [List.head?_cons, Option.some.injEq] at hc
      subst hc
      exact isJsSpace_of_alpha hu0)
  have hspan5 : spanP isAlphaC (u0 :: us') = (u0 :: us', []) := by
    have := spanP_append isAlphaC (u0 :: us') [] hla (by simp)
    simpa using this
  simp only [List.cons_append] at hspan1 hspan2 hspan3 hspan4
  rw [harr]
  rcases hsg with rfl | rfl <;>
    simp [matchNowRel, hspan1, hspan2, hspan3, hspan4, hspan5,
      show lowEqC 110 110 = true from rfl, show lowEqC 111 111 = true from rfl,
      show lowEqC 119 119 = true from rfl]

theorem matchAgo_none_head {s : JStr} {c : Nat} (h : s.head? = some c)
    (hnd : isDigitC c = false) : matchAgo s = none := by
  cases s with
  | nil => rfl
  | cons x t =>
    simp only [List.head?_cons, Option.some.injEq] at h
    have hsp : spanP isDigitC (x :: t) = ([], x :: t) :=
      spanP_head_none _ _ (fun d hd => by
        simp only [List.head?_cons, Option.some.injEq] at hd
        rw [← hd, h]
        exact hnd)
    simp [matchAgo, hsp]

theorem matchIn_none_head {s : JStr} {c : Nat} (h : s.head? = some c)
    (hn : lowerC c ≠ 105) : matchIn s = none := by
  cases s with
  | nil => rfl
  | cons x t =>
    simp only [List.head?_cons, Option.some.injEq] at h
    subst h
    have hlx : lowEqC x 105 = false := by
      simp only [lowEqC, decide_eq_false_iff_not]
      intro he
      exact hn (by rw [he]; rfl)
    cases t with
    | nil => rfl
    | cons y u => simp [matchIn, hlx]

theorem matchMinus_none_head {s : JStr} {c : Nat} (h : s.head? = some c)
    (hn : lowerC c ≠ 109) : matchMinus s = none := by
  cases s with
  | nil => rfl
  | cons x t =>
    simp only [List.head?_cons, Option.some.injEq] at h
    subst h
    have hlx : lowEqC x 109 = false := by
      simp only [lowEqC, decide_eq_false_iff_not]
      intro he
      exact hn (by rw [he]; rfl)
    match t with
    | [] => rfl
    | [_] => rfl
    | [_, _] => rfl
    | [_, _, _] => rfl
    | _ :: _ :: _ :: _ :: _ => simp [matchMinus, hlx]

theorem matchPlus_none_head {s : JStr} {c : Nat} (h : s.head? = some c)
    (hn : lowerC c ≠ 112) : matchPlus s = none := by
  cases s with
  | nil => rfl
  | cons x t =>
    simp only [List.head?_cons, Option.some.injEq] at h
    subst h
    have hlx : lowEqC x 112 = false := by
      simp only [lowEqC, decide_eq_false_iff_not]
      intro he
      exact hn (by rw [he]; rfl)
    match t with
    | [] => rfl
    | [_] => rfl
    | [_, _] => rfl
    | _ :: _ :: _ :: _ => simp [matchPlus, hlx]

theorem matchAgo_shape {ds ws0 us ws1 : JStr}
    (hd : ds ≠ []) (hdd : ∀ c ∈ ds, isDigitC c = true)
    (hw0 : ∀ c ∈ ws0, isJsSpace c = true)
    (hne : us ≠ []) (hla : ∀ c ∈ us, isAlphaC c = true)
    (hw1 : ws1 ≠ []) (hw1s : ∀ c ∈ ws1, isJsSpace c = true) :
    matchAgo (ds ++ ws0 ++ us ++ ws1 ++ [97, 103, 111]) = some (ds, us) := by
  obtain ⟨u0, us', rfl⟩ : ∃ u0 t, us = u0 :: t := by
    cases us with
    | nil => exact absurd rfl hne
    | cons a b => exact ⟨a, b, rfl⟩
  obtain ⟨w0, ws1', rfl⟩ : ∃ w0 t, ws1 = w0 :: t := by
    cases ws1 with
    | nil => exact absurd rfl hw1
    | cons a b => exact ⟨a, b, rfl⟩
  have hu0 : isAlphaC u0 = true := hla u0 (by simp)
  have hw0' : isJsSpace w0 = true := hw1s w0 (by simp)
  have harr : ds ++ ws0 ++ (u0 :: us') ++ (w0 :: ws1') ++ [97, 103, 111] =
      ds ++ (ws0 ++ ((u0 :: us') ++ ((w0 :: ws1') ++ [97, 103, 111]))) := by
    simp [List.append_assoc]
  have hspan1 : spanP isDigitC
      (ds ++ (ws0 ++ ((u0 :: us') ++ ((w0 :: ws1') ++ [97, 103, 111])))) =
      (ds, ws0 ++ ((u0 :: us') ++ ((w0 :: ws1') ++ [97, 103, 111]))) :=
    spanP_append _ _ _ hdd (fun c hc => by
      cases ws0 with
      | nil =>
        simp only [List.nil_append, List.cons_append, List.head?_cons,
          Option.some.injEq] at hc
        rw [← hc]
        exact isDigitC_of_alpha hu0
      | cons w t =>
        simp only [List.cons_append, List.head?_cons, Option.some.injEq] at hc
        have hw : isJsSpace w = true := hw0 w (by simp)
        simp only [isJsSpace, decide_eq_true_eq] at hw
        simp only [isDigitC, decide_eq_false_iff_not]
        omega)
  have hspan2 : spanP isJsSpace (ws0 ++ ((u0 :: us') ++ ((w0 :: ws1') ++ [97, 103, 111]))) =
      (ws0, (u0 :: us') ++ ((w0 :: ws1') ++ [97, 103, 111])) :=
    spanP_append _ _ _ hw0 (fun c hc => by
      simp only [List.cons_append, List.head?_cons, Option.some.injEq] at hc
      rw [← hc]
      exact isJsSpace_of_alpha hu0)
  have hspan3 : spanP isAlphaC ((u0 :: us') ++ ((w0 :: ws1') ++ [97, 103, 111])) =
      (u0 :: us', (w0 :: ws1') ++ [97, 103, 111]) :=
    spanP_append _ _ _ hla (fun c hc => by
      simp only [List.cons_append, List.head?_cons, Option.some.injEq] at hc
      rw [← hc]
      simp only [isJsSpace, decide_eq_true_eq] at hw0'
      simp only [isAlphaC, decide_eq_false_iff_not]
      omega)
  have hspan4 : spanP isJsSpace ((w0 :: ws1') ++ [97, 103, 111]) =
      (w0 :: ws1', [97, 103, 111]) :=
    spanP_append _ _ _ hw1s (fun c hc => by
      simp only [List.head?_cons, Option.some.injEq] at hc
      rw [← hc]
      decide)
  simp only [List.cons_append] at hspan1 hspan2 hspan3 hspan4
  rw [harr]
  simp [matchAgo, hspan1, hspan2, hspan3, hspan4, hd,
    show lowEqC 97 97 = true from rfl, show lowEqC 103 103 = true from rfl,
    show lowEqC 111 111 = true from rfl]

theorem numUnitTail_shape {ws1 ds ws0 us : JStr}
    (hw1 : ws1 ≠ []) (hw1s : ∀ c ∈ ws1, isJsSpace c = true)
    (hd : ds ≠ []) (hdd : ∀ c ∈ ds, isDigitC c = true)
    (hw0 : ∀ c ∈ ws0, isJsSpace c = true)
    (hne : us ≠ []) (hla : ∀ c ∈ us, isAlphaC c = true) :
    numUnitTail (ws1 ++ ds ++ ws0 ++ us) = some (ds, us) := by
  obtain ⟨d0, ds', rfl⟩ : ∃ d0 t, ds = d0 :: t := by
    cases ds with
    | nil => exact absurd rfl hd
    | cons a b => exact ⟨a, b, rfl⟩
  obtain ⟨u0, us', rfl⟩ : ∃ u0 t, us = u0 :: t := by
    cases us with
    | nil => exact absurd rfl hne
    | cons a b => exact ⟨a, b, rfl⟩
  have hd0 : isDigitC d0 = true := hdd d0 (by simp)
  have hu0 : isAlphaC u0 = true := hla u0 (by simp)
  have harr : ws1 ++ (d0 :: ds') ++ ws0 ++ (u0 :: us') =
      ws1 ++ ((d0 :: ds') ++ (ws0 ++ (u0 :: us'))) := by
    simp [List.append_assoc]
  have hspan1 : spanP isJsSpace (ws1 ++ ((d0 :: ds') ++ (ws0 ++ (u0 :: us')))) =
      (ws1, (d0 :: ds') ++ (ws0 ++ (u0 :: us'))) :=
    spanP_append _ _ _ hw1s (fun c hc => by
      simp only [List.cons_append, List.head?_cons, Option.some.injEq] at hc
      rw [← hc]
      exact isJsSpace_of_digit hd0)
  have hspan2 : spanP isDigitC ((d0 :: ds') ++ (ws0 ++ (u0 :: us'))) =
      (d0 :: ds', ws0 ++ (u0 :: us')) :=
    spanP_append _ _ _ hdd (fun c hc => by
      cases ws0 with
      | nil =>
        simp only [List.nil_append, List.head?_cons, Option.some.injEq] at hc
        rw [← hc]
        exact isDigitC_of_alpha hu0
      | cons w t =>
        simp only [List.cons_append, List.head?_cons, Option.some.injEq] at hc
        have hw : isJsSpace w = true := hw0 w (by simp)
        simp only [isJsSpace, decide_eq_true_eq] at hw
        simp only [isDigitC, decide_eq_false_iff_not]
        omega)
  have hspan3 : spanP isJsSpace (ws0 ++ (u0 :: us')) = (ws0, u0 :: us') :=
    spanP_append _ _ _ hw0 (fun c hc => by
      simp only [List.head?_cons, Option.some.injEq] at hc
      rw [← hc]
      exact isJsSpace_of_alpha hu0)
  have hspan4 : spanP isAlphaC (u0 :: us') = (u0 :: us', []) := by
    have := spanP_append isAlphaC (u0 :: us') [] hla (by simp)
    simpa using this
  simp only [List.cons_append] at hspan1 hspan2 hspan3
  rw [harr]
  simp [numUnitTail, hspan1, hspan2, hspan3, hspan4, hw1]

theorem matchIn_shape {ws1 ds ws0 us : JStr}
    (hw1 : ws1 ≠ []) (hw1s : ∀ c ∈ ws1, isJsSpace c = true)
    (hd : ds ≠ []) (hdd : ∀ c ∈ ds, isDigitC c = true)
    (hw0 : ∀ c ∈ ws0, isJsSpace c = true)
    (hne : us ≠ []) (hla : ∀ c ∈ us, isAlphaC c = true) :
    matchIn ([105, 110] ++ ws1 ++ ds ++ ws0 ++ us) = some (ds, us) := by
  have harr : [105, 110] ++ ws1 ++ ds ++ ws0 ++ us =
      105 :: 110 :: (ws1 ++ ds ++ ws0 ++ us) := by
    simp
  rw [harr]
  show matchIn (105 :: 110 :: (ws1 ++ ds ++ ws0 ++ us)) = some (ds, us)
  rw [matchIn]
  rw [if_pos (by decide)]
  exact numUnitTail_shape hw1 hw1s hd hdd hw0 hne hla

theorem matchMinus_shape {ws1 ds ws0 us : JStr}
    (hw1 : ws1 ≠ []) (hw1s : ∀ c ∈ ws1, isJsSpace c = true)
    (hd : ds ≠ []) (hdd : ∀ c ∈ ds, isDigitC c = true)
    (hw0 : ∀ c ∈ ws0, isJsSpace c = true)
    (hne : us ≠ []) (hla : ∀ c ∈ us, isAlphaC c = true) :
    matchMinus ([109, 105, 110, 117, 115] ++ ws1 ++ ds ++ ws0 ++ us) =
      some (ds, us) := by
  have harr : [109, 105, 110, 117, 115] ++ ws1 ++ ds ++ ws0 ++ us =
      109 :: 105 :: 110 :: 117 :: 115 :: (ws1 ++ ds ++ ws0 ++ us) := by
    simp
  rw [harr]
  rw [matchMinus]
  rw [if_pos (by decide)]
  exact numUnitTail_shape hw1 hw1s hd hdd hw0 hne hla

theorem matchPlus_shape {ws1 ds ws0 us : JStr}
    (hw1 : ws1 ≠ []) (hw1s : ∀ c ∈ ws1, isJsSpace c = true)
    (hd : ds ≠ []) (hdd : ∀ c ∈ ds, isDigitC c = true)
    (hw0 : ∀ c ∈ ws0, isJsSpace c = true)
    (hne : us ≠ []) (hla : ∀ c ∈ us, isAlphaC c = true) :
    matchPlus ([112, 108, 117, 115] ++ ws1 ++ ds ++ ws0 ++ us) =
      some (ds, us) := by
  have harr : [112, 108, 117, 115] ++ ws1 ++ ds ++ ws0 ++ us =
      112 :: 108 :: 117 :: 115 :: (ws1 ++ ds ++ ws0 ++ us) := by
    simp
  rw [harr]
  rw [matchPlus]
  rw [if_pos (by decide)]
  exact numUnitTail_shape hw1 hw1s hd hdd hw0 hne hla

theorem nowRelativeOffset_shape {ws1 ws2 ws3 ds us u : JStr} {sg : Nat}
    (now : ℤ)
    (hw1 : ∀ c ∈ ws1, isJsSpace c = true) (hw2 : ∀ c ∈ ws2, isJsSpace c = true)
    (hw3 : ∀ c ∈ ws3, isJsSpace c = true)
    (hsg : sg = 43 ∨ sg = 45)
    (hd : ds ≠ []) (hdd : ∀ c ∈ ds, isDigitC c = true)
    (hu : alistLookup unitNames us = some u) :
    nowRelativeOffset (S ("now") ++ ws1 ++ [sg] ++ ws2 ++ ds ++ ws3 ++ us) now =
      some (now + (if sg = 45 then -1 else 1) * (digitsVal ds : ℤ) *
        specUnitSeconds u) := by
  obtain ⟨hne, hla, hlow, hsec, hnz, -⟩ := unit_key_facts hu
  unfold nowRelativeOffset
  rw [matchNowRel_shape hw1 hw2 hw3 hsg hd hdd hne
    (fun c hc => isAlphaC_of_lower (hla c hc))]
  simp only [hlow, hu, hsec, if_neg hnz]

/-! ## Claim theorems -/

/-- C5: for every number input `n` (including 0) and every `currentInstant`,
`resolve(n, t) = n`; numeric input is returned unchanged, never
reinterpreted, hence `resolve(resolve(n,t),t) = resolve(n,t)` and
`resolve(0,t) = 0`. -/
theorem claim_C5_numeric_passthrough
    (chrono : JStr → ℤ → Option ℤ) (cms : ℤ) (q : ℚ) (now : ℤ) :
    parseDatetime chrono cms (Sum.inl q) now = Except.ok q ∧
    parseDatetime chrono cms (Sum.inl 0) now = Except.ok 0 ∧
    (parseDatetime chrono cms (Sum.inl q) now).bind
      (fun r => parseDatetime chrono cms (Sum.inl r) now) =
      parseDatetime chrono cms (Sum.inl q) now :=
  ⟨rfl, rfl, rfl⟩

/-- C9 (amended): every successful resolution of a *string* input returns an
integer number of epoch seconds; a numeric input is returned unchanged, so
for numbers the result is an integer exactly when the input already was
one. -/
theorem claim_C9_integer_output (chrono : JStr → ℤ → Option ℤ) (cms : ℤ)
    (s : JStr) (now : ℤ) (q : ℚ)
    (h : parseDatetime chrono cms (Sum.inr s) now = Except.ok q) :
    (∃ n : ℤ, q = (n : ℚ)) ∧
    (∀ q' : ℚ, parseDatetime chrono cms (Sum.inl q') now = Except.ok q') := by
  refine ⟨?_, fun _ => rfl⟩
  cases hres : resolveStr chrono cms (jsLower (jsTrim s)) now with
  | none => simp [parseDatetime, hres] at h
  | some v =>
    simp only [parseDatetime, hres, Except.ok.injEq] at h
    exact ⟨v, h.symm⟩

/-- C9 witness: a concrete successful string resolution, integer-valued. -/
theorem claim_C9_integer_output_witness :
    ∃ n : ℤ, ((7 : ℤ) : ℚ) = (n : ℚ) :=
  (claim_C9_integer_output (fun _ _ => none) 0 (S ("now")) 7 ((7 : ℤ) : ℚ)
    rfl).1

/-- C9 counterexample: the claim promises an integer "including when the
input is itself a number", but the numeric passthrough returns any number
unchanged — `resolve(1.5, t) = 1.5`, which is not an integer. -/
theorem claim_C9_counterexample :
    parseDatetime (fun _ _ => none) 0 (Sum.inl ((3 : ℚ)/2)) 0 =
      Except.ok ((3 : ℚ)/2) ∧ ¬ ∃ n : ℤ, (3 : ℚ)/2 = (n : ℚ) := by
  refine ⟨rfl, ?_⟩
  rintro ⟨n, h⟩
  field_simp at h
  exact absurd (by exact_mod_cast h : (3 : ℤ) = n * 2) (by omega)

/-- C4 (amended): past the earlier tiers, `resolve` runs the normalizer on
the trimmed lower-cased string and hands the result to the
natural-language parser — but without passing the captured `currentInstant`
as reference: the parser is anchored at its own ambient clock reading
(`chronoNowMs`).  A yielded instant is returned as epoch seconds with the
sub-second part floored. -/
theorem claim_C4_fallback_normalized (chrono : JStr → ℤ → Option ℤ)
    (cms : ℤ) (s : JStr) (now : ℤ)
    (h1 : jsLower (jsTrim s) ≠ S ("now"))
    (h2 : shorthandOffset (jsLower (jsTrim s)) now = none)
    (h3 : nowRelativeOffset (jsLower (jsTrim s)) now = none) :
    parseDatetime chrono cms (Sum.inr s) now =
      match chrono (normalizeInput (jsLower (jsTrim s))) cms with
      | some ms => Except.ok ((Int.fdiv ms 1000 : ℤ) : ℚ)
      | none => Except.error (invalidMsg s) := by
  simp only [parseDatetime, resolveStr, if_neg h1, h2, h3]
  cases chrono (normalizeInput (jsLower (jsTrim s))) cms <;> rfl

/-- C4 witness: a string no tier resolves, under a parser that rejects
everything, yields the formatted error. -/
theorem claim_C4_fallback_normalized_witness :
    parseDatetime (fun _ _ => none) 0 (Sum.inr (S ("tomorrow"))) 42 =
      Except.error (invalidMsg (S ("tomorrow"))) := by
  have h := claim_C4_fallback_normalized (fun _ _ => none) 0
    (S ("tomorrow")) 42 (by decide) (by decide) (by decide)
  exact h

/-- C4 counterexample: the claim as stated anchors the fallback parse at the
captured `currentInstant`; with a parser that reports its reference instant,
a call captured at `now = 0` but whose parser reads ambient time 5000 ms
returns 5, not the 0 the claim's anchoring predicts. -/
theorem claim_C4_counterexample :
    parseDatetime cexChrono 5000 (Sum.inr (S ("x"))) 0 =
      Except.ok ((5 : ℤ) : ℚ) ∧
    specAnchoredFallback cexChrono (S ("x")) 0 = some 0 ∧
    ((5 : ℤ) : ℚ) ≠ ((0 : ℤ) : ℚ) := by
  refine ⟨rfl, rfl, ?_⟩
  norm_num

/-- C3: when no tier resolves a string, `resolve` fails with the single
invalid-format error whose message embeds the exact original (untrimmed,
unlowered) input string together with the reminder of supported formats;
it never silently returns a value instead, and `resolve("invalid", t)`
fails with a message containing `invalid`. -/
theorem claim_C3_invalid_format :
    (∀ (chrono : JStr → ℤ → Option ℤ) (cms : ℤ) (s : JStr) (now : ℤ)
      (m : JStr),
      parseDatetime chrono cms (Sum.inr s) now = Except.error m →
        m = invalidMsg s ∧ s <:+: m) ∧
    (∀ (chrono : JStr → ℤ → Option ℤ) (cms : ℤ) (s : JStr) (now : ℤ),
      jsLower (jsTrim s) ≠ S ("now") →
      shorthandOffset (jsLower (jsTrim s)) now = none →
      nowRelativeOffset (jsLower (jsTrim s)) now = none →
      chrono (normalizeInput (jsLower (jsTrim s))) cms = none →
      parseDatetime chrono cms (Sum.inr s) now =
        Except.error (invalidMsg s)) ∧
    (∀ (chrono : JStr → ℤ → Option ℤ) (cms : ℤ) (now : ℤ),
      chrono (S ("invalid")) cms = none →
      parseDatetime chrono cms (Sum.inr (S ("invalid"))) now =
        Except.error (invalidMsg (S ("invalid"))) ∧
      S ("invalid") <:+: invalidMsg (S ("invalid"))) := by
  have hinf : ∀ s : JStr, s <:+: invalidMsg s := by
    intro s
    exact ⟨S ("Invalid datetime format: \""),
      S ("\". Supported formats: epoch seconds, shorthand (-1d, 2h, +1w), relative (now-1h), natural language (yesterday, 5 days ago, last Friday, in 2 weeks), ISO 8601"),
      rfl⟩
  have hfail : ∀ (chrono : JStr → ℤ → Option ℤ) (cms : ℤ) (s : JStr)
      (now : ℤ),
      jsLower (jsTrim s) ≠ S ("now") →
      shorthandOffset (jsLower (jsTrim s)) now = none →
      nowRelativeOffset (jsLower (jsTrim s)) now = none →
      chrono (normalizeInput (jsLower (jsTrim s))) cms = none →
      parseDatetime chrono cms (Sum.inr s) now =
        Except.error (invalidMsg s) := by
    intro chrono cms s now h1 h2 h3 h4
    simp only [parseDatetime, resolveStr, if_neg h1, h2, h3, h4]
    rfl
  refine ⟨?_, hfail, ?_⟩
  · intro chrono cms s now m h
    cases hres : resolveStr chrono cms (jsLower (jsTrim s)) now with
    | some v => simp [parseDatetime, hres] at h
    | none =>
      simp only [parseDatetime, hres, Except.error.injEq] at h
      exact ⟨h.symm, h ▸ hinf s⟩
  · intro chrono cms now hch
    refine ⟨?_, hinf _⟩
    exact hfail chrono cms (S ("invalid")) now (by decide)
      (shorthandOffset_none_head now rfl (by decide) (by decide))
      (nowRelativeOffset_none_head now rfl (by decide))
      (by rw [show normalizeInput (jsLower (jsTrim (S ("invalid")))) =
          S ("invalid") from by decide]; exact hch)

/-- C3 witness: `resolve("invalid")` under a rejecting parser produces the
invalid-format error. -/
theorem claim_C3_invalid_format_witness :
    parseDatetime (fun _ _ => none) 0 (Sum.inr (S ("invalid"))) 7 =
      Except.error (invalidMsg (S ("invalid"))) :=
  (claim_C3_invalid_format.2.2 (fun _ _ => none) 0 7 rfl).1

/-- A shorthand-shaped string begins with its sign character or its first
digit. -/
theorem shape_head {sg ds : JStr} (us : JStr)
    (hs : sg = [] ∨ sg = [43] ∨ sg = [45])
    (hd : ds ≠ []) (hdd : ∀ c ∈ ds, isDigitC c = true) :
    ∃ c, (sg ++ ds ++ us).head? = some c ∧
      (c = 43 ∨ c = 45 ∨ isDigitC c = true) := by
  rcases hs with rfl | rfl | rfl
  · obtain ⟨d0, ds', rfl⟩ : ∃ d0 t, ds = d0 :: t := by
      cases ds with
      | nil => exact absurd rfl hd
      | cons a b => exact ⟨a, b, rfl⟩
    exact ⟨d0, by simp, Or.inr (Or.inr (hdd d0 (by simp)))⟩
  · exact ⟨43, by simp, Or.inl rfl⟩
  · exact ⟨45, by simp, Or.inr (Or.inl rfl)⟩

theorem shape_head_ne_now {c : Nat}
    (hcp : c = 43 ∨ c = 45 ∨ isDigitC c = true) :
    c ≠ 110 ∧ lowerC c ≠ 110 := by
  have hlt : c < 65 := by
    rcases hcp with rfl | rfl | h
    · omega
    · omega
    · simp only [isDigitC, decide_eq_true_eq] at h
      omega
  have hl : lowerC c = c := by
    unfold lowerC
    rw [if_neg (by omega)]
  constructor
  · omega
  · rw [hl]; omega

/-- C1: a trimmed lower-cased input of shape optional sign, digits, and a
recognized unit (no whitespace anywhere) resolves at the shorthand tier to
`currentInstant ± value × unitSeconds`, with `+` meaning future and a bare
or `-` sign meaning past, the unit seconds taken from the spec's table; in
particular `resolve("-1d", t) = t - 86400`, `resolve("1d", t) = t - 86400`
and `resolve("+1d", t) = t + 86400`. -/
theorem claim_C1_shorthand_offset :
    (∀ (chrono : JStr → ℤ → Option ℤ) (cms now : ℤ) (s sg ds us u : JStr),
      sg = [] ∨ sg = [43] ∨ sg = [45] →
      ds ≠ [] → (∀ c ∈ ds, isDigitC c = true) →
      alistLookup unitNames us = some u →
      jsLower (jsTrim s) = sg ++ ds ++ us →
      parseDatetime chrono cms (Sum.inr s) now =
        Except.ok (((now + (if sg = [43] then 1 else -1) *
          (digitsVal ds : ℤ) * specUnitSeconds u) : ℤ) : ℚ)) ∧
    (∀ (chrono : JStr → ℤ → Option ℤ) (cms now : ℤ),
      parseDatetime chrono cms (Sum.inr (S ("-1d"))) now =
        Except.ok (((now - 86400 : ℤ)) : ℚ) ∧
      parseDatetime chrono cms (Sum.inr (S ("1d"))) now =
        Except.ok (((now - 86400 : ℤ)) : ℚ) ∧
      parseDatetime chrono cms (Sum.inr (S ("+1d"))) now =
        Except.ok (((now + 86400 : ℤ)) : ℚ)) := by
  have hgen : ∀ (chrono : JStr → ℤ → Option ℤ) (cms now : ℤ)
      (s sg ds us u : JStr),
      sg = [] ∨ sg = [43] ∨ sg = [45] →
      ds ≠ [] → (∀ c ∈ ds, isDigitC c = true) →
      alistLookup unitNames us = some u →
      jsLower (jsTrim s) = sg ++ ds ++ us →
      parseDatetime chrono cms (Sum.inr s) now =
        Except.ok (((now + (if sg = [43] then 1 else -1) *
          (digitsVal ds : ℤ) * specUnitSeconds u) : ℤ) : ℚ) := by
    intro chrono cms now s sg ds us u hs hd hdd hu hnorm
    obtain ⟨c0, hc0, hc0p⟩ := shape_head us hs hd hdd
    have hner : sg ++ ds ++ us ≠ S ("now") :=
      ne_now_of_head hc0 (shape_head_ne_now hc0p).1
    have hsh := shorthandOffset_shape now hs hd hdd hu
    simp only [parseDatetime, resolveStr, hnorm, if_neg hner, hsh]
  refine ⟨hgen, ?_⟩
  intro chrono cms now
  refine ⟨?_, ?_, ?_⟩
  · have h := hgen chrono cms now (S ("-1d")) [45] [49] [100] (S ("day"))
      (by simp) (by simp) (by decide) (by decide) (by decide)
    rw [h, show (if ([45] : JStr) = [43] then (1 : ℤ) else -1) *
      (digitsVal [49] : ℤ) * specUnitSeconds (S ("day")) = -86400 from by
        decide, show now + (-86400 : ℤ) = now - 86400 from by omega]
  · have h := hgen chrono cms now (S ("1d")) [] [49] [100] (S ("day"))
      (by simp) (by simp) (by decide) (by decide) (by decide)
    rw [h, show (if ([] : JStr) = [43] then (1 : ℤ) else -1) *
      (digitsVal [49] : ℤ) * specUnitSeconds (S ("day")) = -86400 from by
        decide, show now + (-86400 : ℤ) = now - 86400 from by omega]
  · have h := hgen chrono cms now (S ("+1d")) [43] [49] [100] (S ("day"))
      (by simp) (by simp) (by decide) (by decide) (by decide)
    rw [h, show (if ([43] : JStr) = [43] then (1 : ℤ) else -1) *
      (digitsVal [49] : ℤ) * specUnitSeconds (S ("day")) = 86400 from by
        decide]

/-- C1 witness: `resolve("+2h", 100) = 7300`. -/
theorem claim_C1_shorthand_offset_witness :
    parseDatetime (fun _ _ => none) 0 (Sum.inr (S ("+2h"))) 100 =
      Except.ok ((7300 : ℤ) : ℚ) :=
  claim_C1_shorthand_offset.1 (fun _ _ => none) 0 100 (S ("+2h")) [43] [50]
    [104] (S ("hour")) (by simp) (by simp) (by decide) (by decide) (by decide)

/-- C2: a trimmed lower-cased input of shape `now`, a mandatory sign
(whitespace allowed around it), digits, and a recognized unit resolves at
the `now±` tier with the sign directly selecting the direction, using the
same unit table; in particular `resolve("now-1h", t) = t - 3600` and
`resolve("now+2d", t) = t + 2*86400`. -/
theorem claim_C2_now_relative :
    (∀ (chrono : JStr → ℤ → Option ℤ) (cms now : ℤ)
      (s ws1 ws2 ws3 ds us u : JStr) (sg : Nat),
      (∀ c ∈ ws1, isJsSpace c = true) → (∀ c ∈ ws2, isJsSpace c = true) →
      (∀ c ∈ ws3, isJsSpace c = true) →
      sg = 43 ∨ sg = 45 →
      ds ≠ [] → (∀ c ∈ ds, isDigitC c = true) →
      alistLookup unitNames us = some u →
      jsLower (jsTrim s) = S ("now") ++ ws1 ++ [sg] ++ ws2 ++ ds ++ ws3 ++ us →
      parseDatetime chrono cms (Sum.inr s) now =
        Except.ok (((now + (if sg = 45 then -1 else 1) *
          (digitsVal ds : ℤ) * specUnitSeconds u) : ℤ) : ℚ)) ∧
    (∀ (chrono : JStr → ℤ → Option ℤ) (cms now : ℤ),
      parseDatetime chrono cms (Sum.inr (S ("now-1h"))) now =
        Except.ok (((now - 3600 : ℤ)) : ℚ) ∧
      parseDatetime chrono cms (Sum.inr (S ("now+2d"))) now =
        Except.ok (((now + 2 * 86400 : ℤ)) : ℚ)) := by
  have hgen : ∀ (chrono : JStr → ℤ → Option ℤ) (cms now : ℤ)
      (s ws1 ws2 ws3 ds us u : JStr) (sg : Nat),
      (∀ c ∈ ws1, isJsSpace c = true) → (∀ c ∈ ws2, isJsSpace c = true) →
      (∀ c ∈ ws3, isJsSpace c = true) →
      sg = 43 ∨ sg = 45 →
      ds ≠ [] → (∀ c ∈ ds, isDigitC c = true) →
      alistLookup unitNames us = some u →
      jsLower (jsTrim s) = S ("now") ++ ws1 ++ [sg] ++ ws2 ++ ds ++ ws3 ++ us →
      parseDatetime chrono cms (Sum.inr s) now =
        Except.ok (((now + (if sg = 45 then -1 else 1) *
          (digitsVal ds : ℤ) * specUnitSeconds u) : ℤ) : ℚ) := by
    intro chrono cms now s ws1 ws2 ws3 ds us u sg hw1 hw2 hw3 hsg hd hdd hu
      hnorm
    have hner : S ("now") ++ ws1 ++ [sg] ++ ws2 ++ ds ++ ws3 ++ us ≠
        S ("now") := by
      intro he
      have hlen := congrArg List.length he
      simp only [List.length_append] at hlen
      rw [show (S ("now")).length = 3 from rfl] at hlen
      simp only [List.length_singleton] at hlen
      omega
    have hhd : (S ("now") ++ ws1 ++ [sg] ++ ws2 ++ ds ++ ws3 ++ us).head? =
        some 110 := by
      rw [show S ("now") ++ ws1 ++ [sg] ++ ws2 ++ ds ++ ws3 ++ us =
        110 :: (S ("ow") ++ ws1 ++ [sg] ++ ws2 ++ ds ++ ws3 ++ us) from by
          simp [S]]
      rfl
    have hsh : shorthandOffset
        (S ("now") ++ ws1 ++ [sg] ++ ws2 ++ ds ++ ws3 ++ us) now = none :=
      shorthandOffset_none_head now hhd (by decide) (by decide)
    have hnr := nowRelativeOffset_shape now hw1 hw2 hw3 hsg hd hdd hu
    simp only [parseDatetime, resolveStr, hnorm, if_neg hner, hsh, hnr]
  refine ⟨hgen, ?_⟩
  intro chrono cms now
  constructor
  · have h := hgen chrono cms now (S ("now-1h")) [] [] [] [49] [104]
      (S ("hour")) 45 (by simp) (by simp) (by simp) (by simp) (by simp)
      (by decide) (by decide) (by decide)
    rw [h, show (if (45 : Nat) = 45 then (-1 : ℤ) else 1) *
      (digitsVal [49] : ℤ) * specUnitSeconds (S ("hour")) = -3600 from by
        decide, show now + (-3600 : ℤ) = now - 3600 from by omega]
  · have h := hgen chrono cms now (S ("now+2d")) [] [] [] [50] [100]
      (S ("day")) 43 (by simp) (by simp) (by simp) (by simp) (by simp)
      (by decide) (by decide) (by decide)
    rw [h, show (if (43 : Nat) = 45 then (-1 : ℤ) else 1) *
      (digitsVal [50] : ℤ) * specUnitSeconds (S ("day")) = 172800 from by
        decide, show now + (172800 : ℤ) = now + 2 * 86400 from by omega]

/-- C2 witness: `resolve("now - 30m", 0) = -1800`, whitespace around the
sign included. -/
theorem claim_C2_now_relative_witness :
    parseDatetime (fun _ _ => none) 0 (Sum.inr (S ("now - 30m"))) 0 =
      Except.ok ((-1800 : ℤ) : ℚ) :=
  claim_C2_now_relative.1 (fun _ _ => none) 0 0 (S ("now - 30m")) [32] [32]
    [] [51, 48] [109] (S ("minute")) 45 (by decide) (by decide) (by simp)
    (by simp) (by simp) (by decide) (by decide) (by decide)

/-- C7: a string whose trimmed lower-cased form looks like a shorthand
offset but names an unrecognized unit does not fail at the shorthand tier:
the resolver's result is exactly what the normalizer-plus-natural-language
fallback tier produces for the string. -/
theorem claim_C7_unrecognized_unit (chrono : JStr → ℤ → Option ℤ)
    (cms now : ℤ) (s sg ds us : JStr)
    (hs : sg = [] ∨ sg = [43] ∨ sg = [45])
    (hd : ds ≠ []) (hdd : ∀ c ∈ ds, isDigitC c = true)
    (hne : us ≠ []) (hla : ∀ c ∈ us, isLowerC c = true)
    (hu : alistLookup unitNames us = none)
    (hnorm : jsLower (jsTrim s) = sg ++ ds ++ us) :
    parseDatetime chrono cms (Sum.inr s) now = fallbackTier chrono cms s := by
  obtain ⟨c0, hc0, hc0p⟩ := shape_head us hs hd hdd
  have hner : sg ++ ds ++ us ≠ S ("now") :=
    ne_now_of_head hc0 (shape_head_ne_now hc0p).1
  have hsh : shorthandOffset (sg ++ ds ++ us) now = none := by
    have h32 : ¬((32 : Nat) ∈ sg ++ ds ++ us) := by
      intro hm
      rcases List.mem_append.mp hm with hm | hm
      · rcases List.mem_append.mp hm with hm | hm
        · rcases hs with rfl | rfl | rfl <;> simp at hm
        · have := hdd 32 hm
          simp only [isDigitC, decide_eq_true_eq] at this
          omega
      · have := hla 32 hm
        simp only [isLowerC, decide_eq_true_eq] at this
        omega
    have hjl := jsLower_eq_self us (fun c hc => lowerC_of_lower (hla c hc))
    simp only [shorthandOffset, matchShorthand_shape hs hd hdd hne hla,
      if_neg h32, hjl, hu]
  have hnr : nowRelativeOffset (sg ++ ds ++ us) now = none :=
    nowRelativeOffset_none_head now hc0 (shape_head_ne_now hc0p).2
  simp only [parseDatetime, fallbackTier, resolveStr, hnorm, if_neg hner,
    hsh, hnr]

/-- C7 witness: `"5x"` (unit `x` unrecognized) resolves through the
fallback tier. -/
theorem claim_C7_unrecognized_unit_witness :
    parseDatetime (fun _ _ => some 12345) 0 (Sum.inr (S ("5x"))) 11 =
      fallbackTier (fun _ _ => some 12345) 0 (S ("5x")) :=
  claim_C7_unrecognized_unit (fun _ _ => some 12345) 0 11 (S ("5x")) []
    [53] [120] (by simp) (by simp) (by decide) (by simp) (by decide)
    (by decide) (by decide)

/-- C8: success of the resolver, and the value on success, depend only on
the trimmed lower-cased form of a string input; in particular
`resolve("NOW-1H", t) = resolve("now-1h", t)` and
`resolve("  now  ", t) = resolve("now", t)`. -/
theorem claim_C8_trim_lower_insensitive :
    (∀ (chrono : JStr → ℤ → Option ℤ) (cms : ℤ) (s : JStr) (now : ℤ)
      (v : ℚ),
      parseDatetime chrono cms (Sum.inr s) now = Except.ok v ↔
      parseDatetime chrono cms (Sum.inr (jsLower (jsTrim s))) now =
        Except.ok v) ∧
    (∀ (chrono : JStr → ℤ → Option ℤ) (cms now : ℤ),
      parseDatetime chrono cms (Sum.inr (S ("NOW-1H"))) now =
        parseDatetime chrono cms (Sum.inr (S ("now-1h"))) now) ∧
    (∀ (chrono : JStr → ℤ → Option ℤ) (cms now : ℤ),
      parseDatetime chrono cms (Sum.inr (S ("  now  "))) now =
        parseDatetime chrono cms (Sum.inr (S ("now"))) now) := by
  refine ⟨?_, ?_, ?_⟩
  · intro chrono cms s now v
    simp only [parseDatetime, jsNorm_idem]
    cases resolveStr chrono cms (jsLower (jsTrim s)) now <;> simp
  · intro chrono cms now
    have hres : resolveStr chrono cms (S ("now-1h")) now =
        some (now + -1 * (digitsVal [49] : ℤ) * specUnitSeconds (S ("hour"))) := by
      have hnr := @nowRelativeOffset_shape [] [] [] [49] [104] (S ("hour"))
        45 now (by simp) (by simp) (by simp) (by simp) (by simp) (by decide)
        (by decide)
      rw [show S ("now") ++ [] ++ [45] ++ [] ++ [49] ++ [] ++ [104] =
        S ("now-1h") from by decide] at hnr
      have hsh : shorthandOffset (S ("now-1h")) now = none :=
        shorthandOffset_none_head now rfl (by decide) (by decide)
      simp only [resolveStr, if_neg (by decide : ¬(S ("now-1h") = S ("now"))),
        hsh, hnr]
      norm_num
    simp only [parseDatetime,
      show jsLower (jsTrim (S ("NOW-1H"))) = S ("now-1h") from by decide,
      show jsLower (jsTrim (S ("now-1h"))) = S ("now-1h") from by decide,
      hres]
  · intro chrono cms now
    have hres : resolveStr chrono cms (S ("now")) now = some now := by
      unfold resolveStr
      rw [if_pos rfl]
    simp only [parseDatetime,
      show jsLower (jsTrim (S ("  now  "))) = S ("now") from by decide,
      show jsLower (jsTrim (S ("now"))) = S ("now") from by decide, hres]

/-- C6: the Expression Normalizer rewrites exactly the four recognized
whole-string patterns — `<int><unit> ago`, `in <int><unit>`,
`minus <int> <unit>`, `plus <int> <unit>` with a case-insensitively
recognized unit — to the canonical phrase with the canonical unit name
(one of the seven), pluralized with `s` exactly when the parsed integer is
not `1`; every other string passes through verbatim. -/
theorem claim_C6_normalizer :
    (∀ ds ws0 us ws1 u : JStr,
      ds ≠ [] → (∀ c ∈ ds, isDigitC c = true) →
      (∀ c ∈ ws0, isJsSpace c = true) →
      alistLookup unitNames (jsLower us) = some u →
      ws1 ≠ [] → (∀ c ∈ ws1, isJsSpace c = true) →
      normalizeInput (ds ++ ws0 ++ us ++ ws1 ++ S ("ago")) =
        ds ++ [32] ++ u ++ (if digitsVal ds = 1 then [] else [115]) ++
          [32] ++ S ("ago")) ∧
    (∀ ws1 ds ws0 us u : JStr,
      ws1 ≠ [] → (∀ c ∈ ws1, isJsSpace c = true) →
      ds ≠ [] → (∀ c ∈ ds, isDigitC c = true) →
      (∀ c ∈ ws0, isJsSpace c = true) →
      alistLookup unitNames (jsLower us) = some u →
      normalizeInput (S ("in") ++ ws1 ++ ds ++ ws0 ++ us) =
        S ("in ") ++ ds ++ [32] ++ u ++
          (if digitsVal ds = 1 then [] else [115])) ∧
    (∀ ws1 ds ws0 us u : JStr,
      ws1 ≠ [] → (∀ c ∈ ws1, isJsSpace c = true) →
      ds ≠ [] → (∀ c ∈ ds, isDigitC c = true) →
      (∀ c ∈ ws0, isJsSpace c = true) →
      alistLookup unitNames (jsLower us) = some u →
      normalizeInput (S ("minus") ++ ws1 ++ ds ++ ws0 ++ us) =
        ds ++ [32] ++ u ++ (if digitsVal ds = 1 then [] else [115]) ++
          [32] ++ S ("ago")) ∧
    (∀ ws1 ds ws0 us u : JStr,
      ws1 ≠ [] → (∀ c ∈ ws1, isJsSpace c = true) →
      ds ≠ [] → (∀ c ∈ ds, isDigitC c = true) →
      (∀ c ∈ ws0, isJsSpace c = true) →
      alistLookup unitNames (jsLower us) = some u →
      normalizeInput (S ("plus") ++ ws1 ++ ds ++ ws0 ++ us) =
        S ("in ") ++ ds ++ [32] ++ u ++
          (if digitsVal ds = 1 then [] else [115])) ∧
    (∀ k u : JStr, alistLookup unitNames k = some u →
      u ∈ [S ("second"), S ("minute"), S ("hour"), S ("day"), S ("week"),
        S ("month"), S ("year")]) ∧
    (∀ str : JStr,
      (∀ nu, matchAgo str = some nu →
        alistLookup unitNames (jsLower nu.2) = none) →
      (∀ nu, matchIn str = some nu →
        alistLookup unitNames (jsLower nu.2) = none) →
      (∀ nu, matchMinus str = some nu →
        alistLookup unitNames (jsLower nu.2) = none) →
      (∀ nu, matchPlus str = some nu →
        alistLookup unitNames (jsLower nu.2) = none) →
      normalizeInput str = str) := by
  refine ⟨?_, ?_, ?_, ?_, ?_, ?_⟩
  · intro ds ws0 us ws1 u hd hdd hw0 hu hw1 hw1s
    obtain ⟨hne, hla⟩ := unit_key_lower_facts hu
    have hm := matchAgo_shape hd hdd hw0 hne hla hw1 hw1s
    rw [show (S ("ago") : JStr) = [97, 103, 111] from rfl]
    simp only [List.append_assoc, List.cons_append, List.nil_append] at hm
    simp [normalizeInput, hm, hu, agoRewrite, pluralSfx, List.append_assoc]
  · intro ws1 ds ws0 us u hw1 hw1s hd hdd hw0 hu
    obtain ⟨hne, hla⟩ := unit_key_lower_facts hu
    rw [show (S ("in") : JStr) = [105, 110] from rfl]
    have hagoN : matchAgo ([105, 110] ++ ws1 ++ ds ++ ws0 ++ us) = none :=
      matchAgo_none_head
        (show ([105, 110] ++ ws1 ++ ds ++ ws0 ++ us).head? = some 105 by simp)
        (by decide)
    have hm := matchIn_shape hw1 hw1s hd hdd hw0 hne hla
    rw [show (S ("in ") : JStr) = [105, 110, 32] from rfl]
    simp only [List.append_assoc, List.cons_append, List.nil_append] at hagoN hm
    simp [normalizeInput, hagoN, hm, hu, inRewrite, pluralSfx,
      List.append_assoc]
  · intro ws1 ds ws0 us u hw1 hw1s hd hdd hw0 hu
    obtain ⟨hne, hla⟩ := unit_key_lower_facts hu
    rw [show (S ("minus") : JStr) = [109, 105, 110, 117, 115] from rfl]
    have hagoN : matchAgo ([109, 105, 110, 117, 115] ++ ws1 ++ ds ++ ws0 ++ us) =
        none :=
      matchAgo_none_head
        (show ([109, 105, 110, 117, 115] ++ ws1 ++ ds ++ ws0 ++ us).head? =
          some 109 by simp) (by decide)
    have hinN : matchIn ([109, 105, 110, 117, 115] ++ ws1 ++ ds ++ ws0 ++ us) =
        none :=
      matchIn_none_head
        (show ([109, 105, 110, 117, 115] ++ ws1 ++ ds ++ ws0 ++ us).head? =
          some 109 by simp) (by decide)
    have hm := matchMinus_shape hw1 hw1s hd hdd hw0 hne hla
    rw [show (S ("ago") : JStr) = [97, 103, 111] from rfl]
    simp only [List.append_assoc, List.cons_append, List.nil_append] at hagoN hinN hm
    simp [normalizeInput, hagoN, hinN, hm, hu, agoRewrite, pluralSfx,
      List.append_assoc]
  · intro ws1 ds ws0 us u hw1 hw1s hd hdd hw0 hu
    obtain ⟨hne, hla⟩ := unit_key_lower_facts hu
    rw [show (S ("plus") : JStr) = [112, 108, 117, 115] from rfl]
    have hagoN : matchAgo ([112, 108, 117, 115] ++ ws1 ++ ds ++ ws0 ++ us) =
        none :=
      matchAgo_none_head
        (show ([112, 108, 117, 115] ++ ws1 ++ ds ++ ws0 ++ us).head? =
          some 112 by simp) (by decide)
    have hinN : matchIn ([112, 108, 117, 115] ++ ws1 ++ ds ++ ws0 ++ us) =
        none :=
      matchIn_none_head
        (show ([112, 108, 117, 115] ++ ws1 ++ ds ++ ws0 ++ us).head? =
          some 112 by simp) (by decide)
    have hminN : matchMinus ([112, 108, 117, 115] ++ ws1 ++ ds ++ ws0 ++ us) =
        none :=
      matchMinus_none_head
        (show ([112, 108, 117, 115] ++ ws1 ++ ds ++ ws0 ++ us).head? =
          some 112 by simp) (by decide)
    have hm := matchPlus_shape hw1 hw1s hd hdd hw0 hne hla
    rw [show (S ("in ") : JStr) = [105, 110, 32] from rfl]
    simp only [List.append_assoc, List.cons_append, List.nil_append] at hagoN hinN hminN hm
    simp [normalizeInput, hagoN, hinN, hminN, hm, hu, inRewrite, pluralSfx,
      List.append_assoc]
  · intro k u h
    exact (unit_key_facts h).2.2.2.2.2
  · intro str h1 h2 h3 h4
    have e1 : (matchAgo str).bind (fun nu =>
        (alistLookup unitNames (jsLower nu.2)).map
          (fun u => agoRewrite nu.1 u)) = none := by
      cases hm : matchAgo str with
      | none => rfl
      | some nu => simp [h1 nu hm]
    have e2 : (matchIn str).bind (fun nu =>
        (alistLookup unitNames (jsLower nu.2)).map
          (fun u => inRewrite nu.1 u)) = none := by
      cases hm : matchIn str with
      | none => rfl
      | some nu => simp [h2 nu hm]
    have e3 : (matchMinus str).bind (fun nu =>
        (alistLookup unitNames (jsLower nu.2)).map
          (fun u => agoRewrite nu.1 u)) = none := by
      cases hm : matchMinus str with
      | none => rfl
      | some nu => simp [h3 nu hm]
    have e4 : (matchPlus str).bind (fun nu =>
        (alistLookup unitNames (jsLower nu.2)).map
          (fun u => inRewrite nu.1 u)) = none := by
      cases hm : matchPlus str with
      | none => rfl
      | some nu => simp [h4 nu hm]
    simp only [normalizeInput, e1, e2, e3, e4]

/-- C6 witness: `normalizeInput("2h ago") = "2 hours ago"`. -/
theorem claim_C6_normalizer_witness :
    normalizeInput (S ("2h ago")) = S ("2 hours ago") := by
  have h := claim_C6_normalizer.1 [50] [] [104] [32] (S ("hour")) (by simp)
    (by decide) (by simp) (by decide) (by simp) (by decide)
  exact h

/-- C10: the previous parser implementation and the current one, evaluated
at the same captured current instant, agree on every number input, on the
string `now`, and on every `now-<digits><u>` string with
`u ∈ {s, m, h, d, w}`. -/
theorem claim_C10_refinement (chrono : JStr → ℤ → Option ℤ)
    (cms todayMid : ℤ) (dParse : JStr → Option ℤ) (now : ℤ) :
    (∀ q : ℚ, oldParseDatetime todayMid dParse (Sum.inl q) now =
      parseDatetime chrono cms (Sum.inl q) now) ∧
    (oldParseDatetime todayMid dParse (Sum.inr (S ("now"))) now =
      parseDatetime chrono cms (Sum.inr (S ("now"))) now) ∧
    (∀ (ds : JStr) (u : Nat), ds ≠ [] → (∀ c ∈ ds, isDigitC c = true) →
      u = 115 ∨ u = 109 ∨ u = 104 ∨ u = 100 ∨ u = 119 →
      oldParseDatetime todayMid dParse
          (Sum.inr (S ("now-") ++ ds ++ [u])) now =
        parseDatetime chrono cms (Sum.inr (S ("now-") ++ ds ++ [u])) now) := by
  refine ⟨fun q => rfl, ?_, ?_⟩
  · have hid : jsLower (jsTrim (S ("now"))) = S ("now") := by decide
    simp [oldParseDatetime, parseDatetime, resolveStr, hid]
  · intro ds u hd hdd hu5
    have hudig : isDigitC u = false := by
      rcases hu5 with rfl | rfl | rfl | rfl | rfl <;> decide
    have hchars : ∀ c ∈ S ("now-") ++ ds ++ [u],
        isJsSpace c = false ∧ lowerC c = c := by
      intro c hc
      rcases List.mem_append.mp hc with hc | hc
      · rcases List.mem_append.mp hc with hc | hc
        · have hcv : c = 110 ∨ c = 111 ∨ c = 119 ∨ c = 45 := by
            simpa [show (S ("now-") : JStr) = [110, 111, 119, 45] from rfl]
              using hc
          rcases hcv with rfl | rfl | rfl | rfl <;> exact ⟨by decide, by decide⟩
        · have := hdd c hc
          simp only [isDigitC, decide_eq_true_eq] at this
          refine ⟨?_, ?_⟩
          · simp only [isJsSpace, decide_eq_false_iff_not]; omega
          · unfold lowerC; rw [if_neg (by omega)]
      · have hcv : c = u := by simpa using hc
        subst hcv
        rcases hu5 with rfl | rfl | rfl | rfl | rfl <;>
          exact ⟨by decide, by decide⟩
    have hid : jsLower (jsTrim (S ("now-") ++ ds ++ [u])) =
        S ("now-") ++ ds ++ [u] := by
      rw [jsTrim_eq_self _ (fun c hc => (hchars c hc).1),
        jsLower_eq_self _ (fun c hc => (hchars c hc).2)]
    have hner : S ("now-") ++ ds ++ [u] ≠ S ("now") := by
      intro he
      have hlen := congrArg List.length he
      simp only [List.length_append] at hlen
      rw [show (S ("now-")).length = 4 from rfl,
        show (S ("now")).length = 3 from rfl] at hlen
      simp only [List.length_singleton] at hlen
      omega
    have hspan : spanP isDigitC (ds ++ [u]) = (ds, [u]) :=
      spanP_append _ _ _ hdd (fun c hc => by
        simp only [List.head?_cons, Option.some.injEq] at hc
        rw [← hc]
        exact hudig)
    have hold : matchOldRel (S ("now-") ++ ds ++ [u]) = some (ds, u) := by
      rw [show S ("now-") ++ ds ++ [u] = 110 :: 111 :: 119 :: 45 :: (ds ++ [u])
        from by simp [show (S ("now-") : JStr) = [110, 111, 119, 45] from rfl]]
      simp only [matchOldRel, hspan]
      simp [hd, if_pos hu5]
    obtain ⟨cu, hcu, hk⟩ : ∃ cu, alistLookup unitNames [u] = some cu ∧
        specUnitSeconds cu = oldMult u := by
      rcases hu5 with rfl | rfl | rfl | rfl | rfl
      · exact ⟨S ("second"), by decide, by decide⟩
      · exact ⟨S ("minute"), by decide, by decide⟩
      · exact ⟨S ("hour"), by decide, by decide⟩
      · exact ⟨S ("day"), by decide, by decide⟩
      · exact ⟨S ("week"), by decide, by decide⟩
    have hsh : shorthandOffset (S ("now-") ++ ds ++ [u]) now = none :=
      shorthandOffset_none_head now
        (show (S ("now-") ++ ds ++ [u]).head? = some 110 by
          simp [show (S ("now-") : JStr) = [110, 111, 119, 45] from rfl])
        (by decide) (by decide)
    have hnr := @nowRelativeOffset_shape [] [] [] ds [u] cu 45 now
      (by simp) (by simp) (by simp) (Or.inr rfl) hd hdd hcu
    rw [show S ("now") ++ [] ++ [45] ++ [] ++ ds ++ [] ++ [u] =
      S ("now-") ++ ds ++ [u] from by
        simp [show (S ("now") : JStr) = [110, 111, 119] from rfl,
          show (S ("now-") : JStr) = [110, 111, 119, 45] from rfl]] at hnr
    have hint : now - (digitsVal ds : ℤ) * oldMult u =
        now + (if (45 : Nat) = 45 then (-1 : ℤ) else 1) *
          (digitsVal ds : ℤ) * specUnitSeconds cu := by
      rw [hk]
      simp
      ring
    simp only [oldParseDatetime, parseDatetime, resolveStr, hid, if_neg hner,
      hold, hsh, hnr, hint]

/-- C10 witness: both implementations send `now-1h` at instant 50 to the
same value. -/
theorem claim_C10_refinement_witness :
    oldParseDatetime 0 (fun _ => none) (Sum.inr (S ("now-1h"))) 50 =
      parseDatetime (fun _ _ => none) 0 (Sum.inr (S ("now-1h"))) 50 :=
  (claim_C10_refinement (fun _ _ => none) 0 0 (fun _ => none) 50).2.2 [49]
    104 (by simp) (by decide) (by simp)

end DatadogDatetime
